import Mathlib

/-!
Verification of the batch-construction pipeline in
src/trax/rl/policy_tasks.py.

The development gives a shallow embedding of:

- PolicyTrainTask.policy_batch (lines 96-145): the function that turns one
  trajectory batch into a training triple (observations, actions, weights).
  Machine floats are idealized as real numbers.  A two-dimensional numpy
  array of scalars is a rectangular List (List _); shape checks written with
  a bare Python assert become tests returning a bare AssertionError value.
- PolicyEvalTask.entropy_metric (lines 169-175): the entropy function that
  discards its actions and weights arguments and averages the entropy of the
  policy distribution over the policy inputs.

Two embeddings of policy_batch are given.  The functional one, policy_batch,
treats every numpy operation as a pure value transform.  The second one,
policy_batch_ref, additionally tracks the object identity of the array
returned by the advantage estimator: the statements
advantages -= np.mean(advantages) and advantages /= (np.std(advantages) + eps)
on lines 136-137 are in-place numpy operations, so when the estimator
returns one of the batch fields (rewards or returns) by reference, the
normalization writes through to that field.  policy_batch_ref returns the
post-state of the trajectory batch next to the result.
-/

namespace PolicyTasks

/-- A two-dimensional array of scalars, row major: rows indexed by the batch
dimension, columns by the time dimension. -/
abbrev Mat (α : Type) : Type := List (List α)

/-- The first component of a numpy shape, the batch dimension. -/
def nRows {α : Type} (m : Mat α) : ℕ := m.length

/-- The second component of a numpy shape, read off the first row
(numpy arrays are rectangular, so any row would do). -/
def nCols {α : Type} (m : Mat α) : ℕ := (m.getD 0 []).length

/-- The leading two dimensions of an array, numpy shape with the trailing
dimensions dropped. -/
def shape2 {α : Type} (m : Mat α) : ℕ × ℕ := (m.length, nCols m)

/-- The test performed by the shape assertions of policy_batch: the array
has exactly b rows and every row has exactly t entries.  For a rectangular
numpy array this is equivalent to shape equality with the pair (b, t). -/
def isShape {α : Type} (m : Mat α) (b t : ℕ) : Bool :=
  m.length == b && m.all fun r => r.length == t

/-- The slice m[:, :n] of lines 139-141: keep the first n timesteps of
every row. -/
def trimTo {α : Type} (n : ℕ) (m : Mat α) : Mat α := m.map (List.take n)

/-- An elementwise numpy operation on one array. -/
def mmap {α β : Type} (f : α → β) (m : Mat α) : Mat β := m.map (List.map f)

/-- All entries of an array, batch and time dimensions flattened together,
as numpy reductions without an axis argument see them. -/
def flat {α : Type} (m : Mat α) : List α := m.flatten

/-- Entry lookup with a default, used to state pointwise properties. -/
def getD2 {α : Type} (m : Mat α) (i j : ℕ) (d : α) : α := (m.getD i []).getD j d

/-- The elementwise product of two arrays of equal shape
(line 143, weight_fn(advantages) * mask). -/
noncomputable def hadamard (x y : Mat ℝ) : Mat ℝ :=
  List.zipWith (List.zipWith fun p q => p * q) x y

/-- Arithmetic mean of a list of scalars, the reduction done by np.mean and
jnp.mean over all entries. -/
noncomputable def listMean (l : List ℝ) : ℝ := l.sum / l.length

/-- The np.mean reduction of a two-dimensional array: the scalar mean of all
entries. -/
noncomputable def npMean (m : Mat ℝ) : ℝ := listMean (flat m)

/-- The np.std reduction of a two-dimensional array: the population standard
deviation of all entries, the square root of the mean squared deviation from
the mean. -/
noncomputable def npStd (m : Mat ℝ) : ℝ :=
  Real.sqrt (npMean (mmap (fun x => (x - npMean m) ^ 2) m))

/-- Lines 136-137 of policy_batch: subtract the scalar mean of all advantage
entries, then divide by the population standard deviation of the centered
entries plus epsilon.  (np.std is applied to the already centered array,
because line 136 updated the advantages in place before line 137 runs.) -/
noncomputable def normalizeAdv (a : Mat ℝ) (eps : ℝ) : Mat ℝ :=
  mmap (fun x => x / (npStd (mmap (fun y => y - npMean a) a) + eps))
    (mmap (fun y => y - npMean a) a)

/-- The batch type trax.rl.task.TrajectoryNp as policy_batch reads it:
parallel arrays whose leading two dimensions agree.  Trailing observation and
action dimensions are absorbed into the cell types O and A. -/
structure TrajectoryBatch (O A : Type) where
  observations : Mat O
  actions : Mat A
  rewards : Mat ℝ
  returns : Mat ℝ
  dones : Mat Bool
  mask : Mat ℝ

/-- The error raised by a failing bare Python assert statement.  The
specification calls the condition a ShapeMismatch; the value raised by the
code is an argumentless AssertionError, so the type has a single value with
no payload. -/
inductive AssertionError : Type where
  | mk : AssertionError

/-- The configuration held by PolicyTrainTask (constructor lines 81-85):
the injected value function, advantage estimator and weight function,
and the normalization settings. -/
structure PolicyConfig (O A : Type) where
  value_fn : TrajectoryBatch O A → Mat ℝ
  advantage_estimator : Mat ℝ → Mat ℝ → Mat Bool → Mat ℝ → Mat ℝ
  weight_fn : Mat ℝ → Mat ℝ
  advantage_normalization : Bool
  advantage_normalization_epsilon : ℝ

/-- Lines 114-122: the advantages as returned by the estimator, applied to
rewards, returns, dones and the values computed by value_fn. -/
def rawAdv {O A : Type} (cfg : PolicyConfig O A) (tb : TrajectoryBatch O A) : Mat ℝ :=
  cfg.advantage_estimator tb.rewards tb.returns tb.dones (cfg.value_fn tb)

/-- Lines 134-137: the advantages after the optional normalization step. -/
noncomputable def finalAdv {O A : Type} (cfg : PolicyConfig O A)
    (tb : TrajectoryBatch O A) : Mat ℝ :=
  if cfg.advantage_normalization then
    normalizeAdv (rawAdv cfg tb) cfg.advantage_normalization_epsilon
  else rawAdv cfg tb

/-- Line 143: weights = weight_fn(advantages) * mask, with the mask trimmed
to the first adv_seq_len timesteps on line 141. -/
noncomputable def finalW {O A : Type} (cfg : PolicyConfig O A)
    (tb : TrajectoryBatch O A) : Mat ℝ :=
  hadamard (cfg.weight_fn (finalAdv cfg tb)) (trimTo (nCols (rawAdv cfg tb)) tb.mask)

/-- The method PolicyTrainTask.policy_batch, lines 110-145, as a pure
function.
batch_size and seq_len are the leading dimensions of the observations
(line 110); each assert on lines 111, 112, 115, 132, 133 and 144 becomes a
conditional that short-circuits to an AssertionError; the returned triple is
the trimmed observations, the trimmed actions and the advantage weights. -/
noncomputable def policy_batch {O A : Type} (cfg : PolicyConfig O A)
    (tb : TrajectoryBatch O A) : Except AssertionError (Mat O × Mat A × Mat ℝ) :=
  if isShape tb.actions (nRows tb.observations) (nCols tb.observations) then
    if isShape tb.mask (nRows tb.observations) (nCols tb.observations) then
      if isShape (cfg.value_fn tb) (nRows tb.observations) (nCols tb.observations) then
        if nCols (rawAdv cfg tb) ≤ nCols tb.observations then
          if isShape (rawAdv cfg tb) (nRows tb.observations) (nCols (rawAdv cfg tb)) then
            if isShape (finalW cfg tb) (nRows tb.observations) (nCols (rawAdv cfg tb)) then
              Except.ok
                (trimTo (nCols (rawAdv cfg tb)) tb.observations,
                 trimTo (nCols (rawAdv cfg tb)) tb.actions,
                 finalW cfg tb)
            else Except.error AssertionError.mk
          else Except.error AssertionError.mk
        else Except.error AssertionError.mk
      else Except.error AssertionError.mk
    else Except.error AssertionError.mk
  else Except.error AssertionError.mk

/-- The value returned by the advantage estimator, with object identity made
explicit: either a freshly allocated array, or one of the float-valued batch
fields returned by reference.  (values is wrapped in np.array on line 114 and
thus always fresh, so aliasing it cannot reach the batch.) -/
inductive AdvOut : Type where
  | fresh (a : Mat ℝ) : AdvOut
  | viewRewards : AdvOut
  | viewReturns : AdvOut

/-- The configuration of the reference-tracking model: identical to
PolicyConfig except that the estimator reports the identity of the array it
returns. -/
structure PolicyConfigRef (O A : Type) where
  value_fn : TrajectoryBatch O A → Mat ℝ
  advantage_estimator : Mat ℝ → Mat ℝ → Mat Bool → Mat ℝ → AdvOut
  weight_fn : Mat ℝ → Mat ℝ
  advantage_normalization : Bool
  advantage_normalization_epsilon : ℝ

/-- The value of the advantages array right after line 122, in the
reference-tracking model. -/
def advOf {O A : Type} (cfg : PolicyConfigRef O A) (tb : TrajectoryBatch O A) : Mat ℝ :=
  match cfg.advantage_estimator tb.rewards tb.returns tb.dones (cfg.value_fn tb) with
  | AdvOut.fresh a => a
  | AdvOut.viewRewards => tb.rewards
  | AdvOut.viewReturns => tb.returns

/-- The advantages after the optional in-place normalization, in the
reference-tracking model. -/
noncomputable def finalAdvRef {O A : Type} (cfg : PolicyConfigRef O A)
    (tb : TrajectoryBatch O A) : Mat ℝ :=
  if cfg.advantage_normalization then
    normalizeAdv (advOf cfg tb) cfg.advantage_normalization_epsilon
  else advOf cfg tb

/-- The state of the trajectory batch after lines 134-137: when the
normalization runs and the estimator returned a batch field by reference,
the in-place subtraction and division on lines 136-137 write the normalized
values through to that field; otherwise the batch is untouched. -/
noncomputable def writeBack {O A : Type} (cfg : PolicyConfigRef O A)
    (tb : TrajectoryBatch O A) : TrajectoryBatch O A :=
  if cfg.advantage_normalization then
    match cfg.advantage_estimator tb.rewards tb.returns tb.dones (cfg.value_fn tb) with
    | AdvOut.fresh _ => tb
    | AdvOut.viewRewards => { tb with rewards := finalAdvRef cfg tb }
    | AdvOut.viewReturns => { tb with returns := finalAdvRef cfg tb }
  else tb

/-- The weights of line 143 in the reference-tracking model. -/
noncomputable def finalWRef {O A : Type} (cfg : PolicyConfigRef O A)
    (tb : TrajectoryBatch O A) : Mat ℝ :=
  hadamard (cfg.weight_fn (finalAdvRef cfg tb)) (trimTo (nCols (advOf cfg tb)) tb.mask)

/-- policy_batch with the estimator aliasing tracked: next to the result, the
pair carries the state of the trajectory batch when the call returns or
raises.  The asserts on lines 111, 112, 115, 132 and 133 run before the
normalization, so on those error paths the batch is still pristine; the final
assert on line 144 runs after it, so that error path carries the write-back,
exactly as the returning path does. -/
noncomputable def policy_batch_ref {O A : Type} (cfg : PolicyConfigRef O A)
    (tb : TrajectoryBatch O A) :
    Except AssertionError (Mat O × Mat A × Mat ℝ) × TrajectoryBatch O A :=
  if isShape tb.actions (nRows tb.observations) (nCols tb.observations) then
    if isShape tb.mask (nRows tb.observations) (nCols tb.observations) then
      if isShape (cfg.value_fn tb) (nRows tb.observations) (nCols tb.observations) then
        if nCols (advOf cfg tb) ≤ nCols tb.observations then
          if isShape (advOf cfg tb) (nRows tb.observations) (nCols (advOf cfg tb)) then
            if isShape (finalWRef cfg tb) (nRows tb.observations) (nCols (advOf cfg tb)) then
              (Except.ok
                 (trimTo (nCols (advOf cfg tb)) tb.observations,
                  trimTo (nCols (advOf cfg tb)) tb.actions,
                  finalWRef cfg tb),
               writeBack cfg tb)
            else (Except.error AssertionError.mk, writeBack cfg tb)
          else (Except.error AssertionError.mk, tb)
        else (Except.error AssertionError.mk, tb)
      else (Except.error AssertionError.mk, tb)
    else (Except.error AssertionError.mk, tb)
  else (Except.error AssertionError.mk, tb)

/-- The inner function of PolicyEvalTask.entropy_metric, lines 171-174: the
actions and weights arguments are deleted unread, and the result is the
arithmetic mean of all entries of the entropy of the policy distribution on
the policy inputs.  The distribution lives outside this module, so its
entropy map over a batch of policy inputs is a parameter; its output entries
are taken already flattened, as jnp.mean reduces over all of them. -/
noncomputable def Entropy {P A W : Type} (dist_entropy : P → List ℝ)
    (policy_inputs : P) (_actions : A) (_weights : W) : ℝ :=
  listMean (dist_entropy policy_inputs)

/-- A weight function that maps arrays of a given shape to arrays of the same
shape, the contract stated for WeightFunction in the interface section. -/
def ShapePreserving (f : Mat ℝ → Mat ℝ) : Prop :=
  ∀ (m : Mat ℝ) (b t : ℕ), isShape m b t = true → isShape (f m) b t = true

/-- A concrete trajectory batch with batch_size 1 and seq_len 5, the
margin-2 scenario: observation and action cells are integers. -/
def exTB : TrajectoryBatch ℤ ℤ where
  observations := [[10, 20, 30, 40, 50]]
  actions := [[1, 2, 3, 4, 5]]
  rewards := [[1, 0, 1, 0, 1]]
  returns := [[2, 2, 2, 2, 2]]
  dones := [[false, false, false, false, false]]
  mask := [[1, 1, 0, 1, 1]]

/-- A concrete configuration: constant baseline, an estimator that consumes a
margin of 2 timesteps (returning the first 3 columns of the rewards), the
identity weight function, no normalization. -/
noncomputable def exCfg : PolicyConfig ℤ ℤ where
  value_fn := fun _ => [[0, 0, 0, 0, 0]]
  advantage_estimator := fun r _ _ _ => trimTo 3 r
  weight_fn := fun m => m
  advantage_normalization := false
  advantage_normalization_epsilon := 1 / 100000

/-- A malformed trajectory batch: observations and mask have shape (1, 2) but
actions has shape (1, 3). -/
def exTBbadA : TrajectoryBatch ℤ ℤ where
  observations := [[10, 20]]
  actions := [[1, 2, 3]]
  rewards := [[0, 0]]
  returns := [[0, 0]]
  dones := [[false, false]]
  mask := [[1, 1]]

/-- A second malformed batch, with a different offending actions shape
(1, 4). -/
def exTBbadB : TrajectoryBatch ℤ ℤ where
  observations := [[10, 20]]
  actions := [[1, 2, 3, 4]]
  rewards := [[0, 0]]
  returns := [[0, 0]]
  dones := [[false, false]]
  mask := [[1, 1]]

/-- A well-formed batch with batch_size 1 and seq_len 2, used for the
normalization scenarios. -/
def exTBC : TrajectoryBatch ℤ ℤ where
  observations := [[10, 20]]
  actions := [[1, 2]]
  rewards := [[1, -1]]
  returns := [[0, 0]]
  dones := [[false, false]]
  mask := [[1, 1]]

/-- A configuration with normalization on and a constant advantage estimate
(zero variance). -/
noncomputable def exCfgC : PolicyConfig ℤ ℤ where
  value_fn := fun _ => [[0, 0]]
  advantage_estimator := fun _ _ _ _ => [[5, 5]]
  weight_fn := fun m => m
  advantage_normalization := true
  advantage_normalization_epsilon := 1 / 100000

/-- A configuration with normalization on whose advantage estimate has a tiny
but non-zero variance, of the order of epsilon. -/
noncomputable def exCfgN : PolicyConfig ℤ ℤ where
  value_fn := fun _ => [[0, 0]]
  advantage_estimator := fun _ _ _ _ => [[0, 2 / 100000]]
  weight_fn := fun m => m
  advantage_normalization := true
  advantage_normalization_epsilon := 1 / 100000

/-- A reference-tracking configuration whose estimator always returns a fresh
array, with normalization off. -/
noncomputable def exCfgRef : PolicyConfigRef ℤ ℤ where
  value_fn := fun _ => [[0, 0, 0, 0, 0]]
  advantage_estimator := fun r _ _ _ => AdvOut.fresh (trimTo 3 r)
  weight_fn := fun m => m
  advantage_normalization := false
  advantage_normalization_epsilon := 1 / 100000

/-- A reference-tracking configuration whose estimator returns the rewards
field of the batch by reference, with normalization on. -/
noncomputable def exCfgMut : PolicyConfigRef ℤ ℤ where
  value_fn := fun _ => [[0, 0]]
  advantage_estimator := fun _ _ _ _ => AdvOut.viewRewards
  weight_fn := fun m => m
  advantage_normalization := true
  advantage_normalization_epsilon := 1 / 100000

theorem isShape_iff {α : Type} (m : Mat α) (b t : ℕ) :
    isShape m b t = true ↔ m.length = b ∧ ∀ r ∈ m, r.length = t := by
  simp [isShape, List.all_eq_true]

theorem mmap_mmap {α β γ : Type} (f : β → γ) (g : α → β) (m : Mat α) :
    mmap f (mmap g m) = mmap (fun x => f (g x)) m := by
  simp [mmap, List.map_map, Function.comp_def]

theorem isShape_mmap {α β : Type} (f : α → β) (m : Mat α) (b t : ℕ) :
    isShape (mmap f m) b t = isShape m b t := by
  rw [Bool.eq_iff_iff, isShape_iff, isShape_iff]
  simp [mmap]

theorem isShape_normalizeAdv (a : Mat ℝ) (eps : ℝ) (b t : ℕ) :
    isShape (normalizeAdv a eps) b t = isShape a b t := by
  unfold normalizeAdv
  rw [isShape_mmap, isShape_mmap]

theorem isShape_trimTo {α : Type} {m : Mat α} {b t : ℕ} (h : isShape m b t = true)
    {n : ℕ} (hn : n ≤ t) : isShape (trimTo n m) b n = true := by
  rw [isShape_iff] at h ⊢
  obtain ⟨hb, ht⟩ := h
  refine ⟨by simpa [trimTo] using hb, ?_⟩
  intro r hr
  simp only [trimTo, List.mem_map] at hr
  obtain ⟨r0, hr0, rfl⟩ := hr
  simp [List.length_take, ht r0 hr0, Nat.min_eq_left hn]

theorem mem_zipWith {α β γ : Type} (f : α → β → γ) :
    ∀ (l1 : List α) (l2 : List β), ∀ z ∈ List.zipWith f l1 l2,
      ∃ p ∈ l1, ∃ q ∈ l2, z = f p q := by
  intro l1
  induction l1 with
  | nil => simp
  | cons x xs ih =>
    intro l2 z hz
    cases l2 with
    | nil => simp at hz
    | cons y ys =>
      simp only [List.zipWith_cons_cons, List.mem_cons] at hz
      rcases hz with rfl | hz
      · exact ⟨x, by simp, y, by simp, rfl⟩
      · obtain ⟨p, hp, q, hq, rfl⟩ := ih ys z hz
        exact ⟨p, by simp [hp], q, by simp [hq], rfl⟩

theorem isShape_hadamard {x y : Mat ℝ} {b n : ℕ} (hx : isShape x b n = true)
    (hy : isShape y b n = true) : isShape (hadamard x y) b n = true := by
  rw [isShape_iff] at hx hy ⊢
  constructor
  · simp [hadamard, List.length_zipWith, hx.1, hy.1]
  · intro r hr
    unfold hadamard at hr
    obtain ⟨rx, hrx, ry, hry, rfl⟩ := mem_zipWith _ _ _ r hr
    simp [List.length_zipWith, hx.2 rx hrx, hy.2 ry hry]

theorem getD_zipWith_mul (l1 l2 : List ℝ) (t : ℕ) :
    (List.zipWith (fun p q => p * q) l1 l2).getD t 0 = 0 ∨
      (List.zipWith (fun p q => p * q) l1 l2).getD t 0 = l1.getD t 0 * l2.getD t 0 := by
  induction l1 generalizing l2 t with
  | nil => left; simp
  | cons x xs ih =>
    cases l2 with
    | nil => left; simp
    | cons y ys =>
      cases t with
      | zero => right; simp
      | succ t => simpa using ih ys t

theorem getD_hadamard_row (x y : Mat ℝ) (i : ℕ) :
    (hadamard x y).getD i [] =
      List.zipWith (fun p q => p * q) (x.getD i []) (y.getD i []) := by
  induction x generalizing y i with
  | nil => simp [hadamard]
  | cons r rs ih =>
    cases y with
    | nil => simp [hadamard]
    | cons s ss =>
      cases i with
      | zero => simp [hadamard]
      | succ i => simpa [hadamard] using ih ss i

theorem getD2_hadamard_eq_zero {x y : Mat ℝ} {i t : ℕ} (h : getD2 y i t 0 = 0) :
    getD2 (hadamard x y) i t 0 = 0 := by
  unfold getD2 at h ⊢
  rw [getD_hadamard_row]
  rcases getD_zipWith_mul (x.getD i []) (y.getD i []) t with h0 | h0
  · exact h0
  · rw [h0, h, mul_zero]

theorem flat_mmap {α β : Type} (f : α → β) (m : Mat α) :
    flat (mmap f m) = (flat m).map f := by
  induction m with
  | nil => rfl
  | cons r rs ih =>
    simp only [mmap, flat, List.map_cons, List.flatten_cons, List.map_append] at ih ⊢
    rw [ih]

theorem sum_map_sub_const (l : List ℝ) (c : ℝ) :
    (l.map fun x => x - c).sum = l.sum - l.length * c := by
  induction l with
  | nil => simp
  | cons x xs ih =>
    simp only [List.map_cons, List.sum_cons, List.length_cons, ih]
    push_cast
    ring

theorem sum_map_div_const (l : List ℝ) (c : ℝ) :
    (l.map fun x => x / c).sum = l.sum / c := by
  induction l with
  | nil => simp
  | cons x xs ih =>
    simp only [List.map_cons, List.sum_cons, ih]
    ring

theorem sum_of_const (l : List ℝ) (c : ℝ) (h : ∀ x ∈ l, x = c) :
    l.sum = l.length * c := by
  induction l with
  | nil => simp
  | cons x xs ih =>
    simp only [List.sum_cons, List.length_cons]
    rw [h x (by simp), ih fun y hy => h y (by simp [hy])]
    push_cast
    ring

theorem npStd_nonneg (m : Mat ℝ) : 0 ≤ npStd m := Real.sqrt_nonneg _

theorem npMean_mmap_sub (a : Mat ℝ) (hne : flat a ≠ []) :
    npMean (mmap (fun y => y - npMean a) a) = 0 := by
  unfold npMean listMean
  rw [flat_mmap, sum_map_sub_const, List.length_map]
  have hn : ((flat a).length : ℝ) ≠ 0 := by
    have := List.length_pos.mpr hne
    positivity
  field_simp

theorem npMean_mmap_div (a : Mat ℝ) (c : ℝ) :
    npMean (mmap (fun x => x / c) a) = npMean a / c := by
  unfold npMean listMean
  rw [flat_mmap, sum_map_div_const, List.length_map]
  ring

theorem npMean_const (a : Mat ℝ) (c : ℝ) (hne : flat a ≠ []) (hc : ∀ x ∈ flat a, x = c) :
    npMean a = c := by
  unfold npMean listMean
  rw [sum_of_const (flat a) c hc]
  have hn : ((flat a).length : ℝ) ≠ 0 := by
    have := List.length_pos.mpr hne
    positivity
  field_simp

theorem npStd_mmap_div (a : Mat ℝ) (c : ℝ) (hc : 0 ≤ c) :
    npStd (mmap (fun x => x / c) a) = npStd a / c := by
  unfold npStd
  rw [npMean_mmap_div, mmap_mmap]
  have h1 : (fun x : ℝ => (x / c - npMean a / c) ^ 2) =
      fun x : ℝ => (x - npMean a) ^ 2 / c ^ 2 := by
    funext x
    rw [div_sub_div_same, div_pow]
  rw [h1]
  have h2 : mmap (fun x : ℝ => (x - npMean a) ^ 2 / c ^ 2) a =
      mmap (fun x : ℝ => x / c ^ 2) (mmap (fun x : ℝ => (x - npMean a) ^ 2) a) := by
    rw [mmap_mmap]
  rw [h2, npMean_mmap_div, Real.sqrt_div' _ (pow_nonneg hc 2), Real.sqrt_sq hc]

theorem npStd_centered (a : Mat ℝ) (hne : flat a ≠ []) :
    npStd (mmap (fun y => y - npMean a) a) = npStd a := by
  unfold npStd
  rw [npMean_mmap_sub a hne, mmap_mmap]
  simp only [sub_zero]

theorem normalizeAdv_eq (a : Mat ℝ) (eps : ℝ) (hne : flat a ≠ []) :
    normalizeAdv a eps = mmap (fun x => (x - npMean a) / (npStd a + eps)) a := by
  unfold normalizeAdv
  rw [npStd_centered a hne, mmap_mmap]

theorem npMean_normalizeAdv (a : Mat ℝ) (eps : ℝ) (hne : flat a ≠ []) :
    npMean (normalizeAdv a eps) = 0 := by
  unfold normalizeAdv
  rw [npStd_centered a hne, npMean_mmap_div, npMean_mmap_sub a hne, zero_div]

theorem npStd_normalizeAdv (a : Mat ℝ) (eps : ℝ) (hne : flat a ≠ []) (heps : 0 ≤ eps) :
    npStd (normalizeAdv a eps) = npStd a / (npStd a + eps) := by
  unfold normalizeAdv
  rw [npStd_centered a hne,
    npStd_mmap_div _ _ (add_nonneg (npStd_nonneg a) heps),
    npStd_centered a hne]

theorem normalizeAdv_const (a : Mat ℝ) (eps c : ℝ) (hne : flat a ≠ [])
    (hc : ∀ x ∈ flat a, x = c) : ∀ x ∈ flat (normalizeAdv a eps), x = 0 := by
  intro x hx
  unfold normalizeAdv at hx
  rw [flat_mmap, flat_mmap] at hx
  simp only [List.map_map, List.mem_map, Function.comp_def] at hx
  obtain ⟨y, hy, rfl⟩ := hx
  rw [hc y hy, npMean_const a c hne hc]
  simp

theorem policy_batch_ok_iff {O A : Type} (cfg : PolicyConfig O A)
    (tb : TrajectoryBatch O A) (o : Mat O) (a : Mat A) (w : Mat ℝ) :
    policy_batch cfg tb = Except.ok (o, a, w) ↔
      isShape tb.actions (nRows tb.observations) (nCols tb.observations) = true ∧
      isShape tb.mask (nRows tb.observations) (nCols tb.observations) = true ∧
      isShape (cfg.value_fn tb) (nRows tb.observations) (nCols tb.observations) = true ∧
      nCols (rawAdv cfg tb) ≤ nCols tb.observations ∧
      isShape (rawAdv cfg tb) (nRows tb.observations) (nCols (rawAdv cfg tb)) = true ∧
      isShape (finalW cfg tb) (nRows tb.observations) (nCols (rawAdv cfg tb)) = true ∧
      o = trimTo (nCols (rawAdv cfg tb)) tb.observations ∧
      a = trimTo (nCols (rawAdv cfg tb)) tb.actions ∧
      w = finalW cfg tb := by
  unfold policy_batch
  by_cases h1 : isShape tb.actions (nRows tb.observations) (nCols tb.observations) = true <;>
    by_cases h2 : isShape tb.mask (nRows tb.observations) (nCols tb.observations) = true <;>
    by_cases h3 :
      isShape (cfg.value_fn tb) (nRows tb.observations) (nCols tb.observations) = true <;>
    by_cases h4 : nCols (rawAdv cfg tb) ≤ nCols tb.observations <;>
    by_cases h5 :
      isShape (rawAdv cfg tb) (nRows tb.observations) (nCols (rawAdv cfg tb)) = true <;>
    by_cases h6 :
      isShape (finalW cfg tb) (nRows tb.observations) (nCols (rawAdv cfg tb)) = true <;>
    simp [h1, h2, h3, h4, h5, h6, eq_comm, and_assoc]

theorem isShape_congr {α β : Type} {x : Mat α} {y : Mat β}
    (h : x.map List.length = y.map List.length) (b t : ℕ) :
    isShape x b t = isShape y b t := by
  have h1 : x.length = y.length := by
    simpa using congrArg List.length h
  rw [Bool.eq_iff_iff, isShape_iff, isShape_iff, h1]
  have h2 : (∀ r ∈ x, r.length = t) ↔ ∀ r ∈ y, r.length = t := by
    constructor <;> intro hh r hr
    · have hmem : r.length ∈ x.map List.length := by
        rw [h]
        exact List.mem_map_of_mem List.length hr
      obtain ⟨r0, hr0, he⟩ := List.mem_map.mp hmem
      rw [← he]
      exact hh r0 hr0
    · have hmem : r.length ∈ y.map List.length := by
        rw [← h]
        exact List.mem_map_of_mem List.length hr
      obtain ⟨r0, hr0, he⟩ := List.mem_map.mp hmem
      rw [← he]
      exact hh r0 hr0
  rw [h2]

theorem rowLens_mmap {α β : Type} (f : α → β) (m : Mat α) :
    (mmap f m).map List.length = m.map List.length := by
  simp [mmap, List.map_map, Function.comp_def]

theorem rowLens_hadamard_left {x x' y : Mat ℝ}
    (h : x.map List.length = x'.map List.length) :
    (hadamard x y).map List.length = (hadamard x' y).map List.length := by
  induction x generalizing x' y with
  | nil =>
    cases x' with
    | nil => rfl
    | cons r' rs' => simp at h
  | cons r rs ih =>
    cases x' with
    | nil => simp at h
    | cons r' rs' =>
      simp only [List.map_cons, List.cons.injEq] at h
      cases y with
      | nil => rfl
      | cons s ss =>
        simp only [hadamard, List.zipWith_cons_cons, List.map_cons,
          List.length_zipWith, List.cons.injEq]
        exact ⟨by rw [h.1], ih h.2⟩

theorem mem_flat_hadamard {x y : Mat ℝ} {z : ℝ} (hz : z ∈ flat (hadamard x y)) :
    ∃ p ∈ flat x, ∃ q ∈ flat y, z = p * q := by
  induction x generalizing y with
  | nil => simp [hadamard, flat] at hz
  | cons r rs ih =>
    cases y with
    | nil => simp [hadamard, flat] at hz
    | cons s ss =>
      simp only [hadamard, List.zipWith_cons_cons, flat, List.flatten_cons,
        List.mem_append] at hz
      rcases hz with hz | hz
      · obtain ⟨p, hp, q, hq, rfl⟩ := mem_zipWith _ _ _ z hz
        exact ⟨p, by simp [flat, hp], q, by simp [flat, hq], rfl⟩
      · obtain ⟨p, hp, q, hq, rfl⟩ := ih hz
        exact ⟨p, by simp [flat] at hp ⊢; exact Or.inr hp,
               q, by simp [flat] at hq ⊢; exact Or.inr hq, rfl⟩

theorem writeBack_of_no_normalization {O A : Type} {cfg : PolicyConfigRef O A}
    (h : cfg.advantage_normalization = false) (tb : TrajectoryBatch O A) :
    writeBack cfg tb = tb := by
  unfold writeBack
  rw [h]
  simp

theorem writeBack_of_fresh {O A : Type} {cfg : PolicyConfigRef O A}
    (tb : TrajectoryBatch O A)
    (h : ∀ r R d v, ∃ a, cfg.advantage_estimator r R d v = AdvOut.fresh a) :
    writeBack cfg tb = tb := by
  unfold writeBack
  obtain ⟨a, ha⟩ := h tb.rewards tb.returns tb.dones (cfg.value_fn tb)
  rw [ha]
  simp

theorem policy_batch_ref_snd {O A : Type} (cfg : PolicyConfigRef O A)
    (tb : TrajectoryBatch O A) :
    (policy_batch_ref cfg tb).2 = tb ∨ (policy_batch_ref cfg tb).2 = writeBack cfg tb := by
  unfold policy_batch_ref
  by_cases h1 : isShape tb.actions (nRows tb.observations) (nCols tb.observations) = true <;>
    by_cases h2 : isShape tb.mask (nRows tb.observations) (nCols tb.observations) = true <;>
    by_cases h3 :
      isShape (cfg.value_fn tb) (nRows tb.observations) (nCols tb.observations) = true <;>
    by_cases h4 : nCols (advOf cfg tb) ≤ nCols tb.observations <;>
    by_cases h5 :
      isShape (advOf cfg tb) (nRows tb.observations) (nCols (advOf cfg tb)) = true <;>
    by_cases h6 :
      isShape (finalWRef cfg tb) (nRows tb.observations) (nCols (advOf cfg tb)) = true <;>
    simp [h1, h2, h3, h4, h5, h6]

theorem npStd_const (a : Mat ℝ) (c : ℝ) (hne : flat a ≠ []) (hc : ∀ x ∈ flat a, x = c) :
    npStd a = 0 := by
  unfold npStd
  have h0 : ∀ x ∈ flat (mmap (fun x => (x - npMean a) ^ 2) a), x = 0 := by
    intro x hx
    rw [flat_mmap] at hx
    obtain ⟨y, hy, rfl⟩ := List.mem_map.mp hx
    rw [hc y hy, npMean_const a c hne hc, sub_self]
    exact zero_pow two_ne_zero
  have hne2 : flat (mmap (fun x => (x - npMean a) ^ 2) a) ≠ [] := by
    rw [flat_mmap]
    simpa using hne
  rw [npMean_const _ 0 hne2 h0, Real.sqrt_zero]

theorem shape2_of_isShape {α : Type} {m : Mat α} {b t : ℕ} (h : isShape m b t = true) :
    shape2 m = (b, if b = 0 then 0 else t) := by
  rw [isShape_iff] at h
  obtain ⟨hb, ht⟩ := h
  unfold shape2 nCols
  cases m with
  | nil =>
    simp only [List.length_nil] at hb
    simp [← hb]
  | cons r rs =>
    simp only [List.length_cons] at hb
    simp [← hb, ht r (by simp)]

/-- Claim C2: for every trajectory batch with consistent field shapes whose
injected functions respect their shape contracts, policy_batch succeeds and
returns trimmed observations, trimmed actions and weights whose leading
dimensions are all (batch_size, adv_seq_len), adv_seq_len being the time
dimension of the estimator output. -/
theorem c2_output_shapes {O A : Type} (cfg : PolicyConfig O A) (tb : TrajectoryBatch O A)
    (hobs : isShape tb.observations (nRows tb.observations) (nCols tb.observations) = true)
    (hact : isShape tb.actions (nRows tb.observations) (nCols tb.observations) = true)
    (hmask : isShape tb.mask (nRows tb.observations) (nCols tb.observations) = true)
    (hval : isShape (cfg.value_fn tb) (nRows tb.observations) (nCols tb.observations) = true)
    (hadv : isShape (rawAdv cfg tb) (nRows tb.observations) (nCols (rawAdv cfg tb)) = true)
    (hle : nCols (rawAdv cfg tb) ≤ nCols tb.observations)
    (hwf : ShapePreserving cfg.weight_fn) :
    policy_batch cfg tb = Except.ok
      (trimTo (nCols (rawAdv cfg tb)) tb.observations,
       trimTo (nCols (rawAdv cfg tb)) tb.actions,
       finalW cfg tb) ∧
    isShape (trimTo (nCols (rawAdv cfg tb)) tb.observations)
      (nRows tb.observations) (nCols (rawAdv cfg tb)) = true ∧
    isShape (trimTo (nCols (rawAdv cfg tb)) tb.actions)
      (nRows tb.observations) (nCols (rawAdv cfg tb)) = true ∧
    isShape (finalW cfg tb) (nRows tb.observations) (nCols (rawAdv cfg tb)) = true := by
  have hfadv : isShape (finalAdv cfg tb) (nRows tb.observations)
      (nCols (rawAdv cfg tb)) = true := by
    unfold finalAdv
    split
    · rw [isShape_normalizeAdv]
      exact hadv
    · exact hadv
  have hW : isShape (finalW cfg tb) (nRows tb.observations)
      (nCols (rawAdv cfg tb)) = true := by
    unfold finalW
    exact isShape_hadamard (hwf _ _ _ hfadv) (isShape_trimTo hmask hle)
  refine ⟨?_, isShape_trimTo hobs hle, isShape_trimTo hact hle, hW⟩
  rw [policy_batch_ok_iff]
  exact ⟨hact, hmask, hval, hle, hadv, hW, rfl, rfl, rfl⟩

theorem c2_output_shapes_witness :
    isShape exTB.observations (nRows exTB.observations) (nCols exTB.observations) = true ∧
    nCols (rawAdv exCfg exTB) ≤ nCols exTB.observations ∧
    policy_batch exCfg exTB = Except.ok
      (trimTo (nCols (rawAdv exCfg exTB)) exTB.observations,
       trimTo (nCols (rawAdv exCfg exTB)) exTB.actions,
       finalW exCfg exTB) ∧
    isShape (finalW exCfg exTB) (nRows exTB.observations) (nCols (rawAdv exCfg exTB)) = true := by
  have h := c2_output_shapes exCfg exTB (by decide) (by decide) (by decide)
    (by decide) (by decide) (by decide) (fun m b t hm => hm)
  exact ⟨by decide, by decide, h.1, h.2.2.2⟩

/-- Claim C3: on every successful run, the returned weights equal
weight_fn(advantages) multiplied elementwise by the trimmed mask, so every
entry sitting under a zero mask entry is exactly zero, whatever the advantage
and weight function values there are. -/
theorem c3_mask_zero_weights {O A : Type} (cfg : PolicyConfig O A)
    (tb : TrajectoryBatch O A) (o : Mat O) (a : Mat A) (w : Mat ℝ)
    (hok : policy_batch cfg tb = Except.ok (o, a, w)) :
    w = hadamard (cfg.weight_fn (finalAdv cfg tb))
        (trimTo (nCols (rawAdv cfg tb)) tb.mask) ∧
    ∀ i t : ℕ, getD2 (trimTo (nCols (rawAdv cfg tb)) tb.mask) i t 0 = 0 →
      getD2 w i t 0 = 0 := by
  have hw : w = finalW cfg tb :=
    ((policy_batch_ok_iff cfg tb o a w).mp hok).2.2.2.2.2.2.2.2
  constructor
  · rw [hw]
    rfl
  · intro i t hmz
    rw [hw]
    unfold finalW
    exact getD2_hadamard_eq_zero hmz

theorem c3_mask_zero_weights_witness :
    policy_batch exCfg exTB = Except.ok
      (trimTo 3 exTB.observations, trimTo 3 exTB.actions, finalW exCfg exTB) ∧
    getD2 (trimTo (nCols (rawAdv exCfg exTB)) exTB.mask) 0 2 0 = 0 ∧
    getD2 (finalW exCfg exTB) 0 2 0 = 0 := by
  have hok : policy_batch exCfg exTB = Except.ok
      (trimTo 3 exTB.observations, trimTo 3 exTB.actions, finalW exCfg exTB) := rfl
  have hmz : getD2 (trimTo (nCols (rawAdv exCfg exTB)) exTB.mask) 0 2 0 = (0 : ℝ) := rfl
  exact ⟨hok, hmz, (c3_mask_zero_weights exCfg exTB _ _ _ hok).2 0 2 hmz⟩

/-- Claim C4: on every successful run, the returned observations and actions
are verbatim the first adv_seq_len timesteps of the corresponding input
arrays, and the mask entering the weights is the same prefix of the input
mask. -/
theorem c4_prefix_trim {O A : Type} (cfg : PolicyConfig O A)
    (tb : TrajectoryBatch O A) (o : Mat O) (a : Mat A) (w : Mat ℝ)
    (hok : policy_batch cfg tb = Except.ok (o, a, w)) :
    o = trimTo (nCols (rawAdv cfg tb)) tb.observations ∧
    a = trimTo (nCols (rawAdv cfg tb)) tb.actions ∧
    w = hadamard (cfg.weight_fn (finalAdv cfg tb))
        (trimTo (nCols (rawAdv cfg tb)) tb.mask) := by
  obtain ⟨-, -, -, -, -, -, ho, ha, hw⟩ := (policy_batch_ok_iff cfg tb o a w).mp hok
  refine ⟨ho, ha, ?_⟩
  rw [hw]
  rfl

theorem c4_prefix_trim_witness :
    policy_batch exCfg exTB = Except.ok
      (trimTo 3 exTB.observations, trimTo 3 exTB.actions, finalW exCfg exTB) ∧
    nCols exTB.observations = 5 ∧
    nCols (rawAdv exCfg exTB) = 3 ∧
    trimTo 3 exTB.observations = [[10, 20, 30]] ∧
    trimTo 3 exTB.actions = [[1, 2, 3]] ∧
    trimTo 3 exTB.observations = trimTo (nCols (rawAdv exCfg exTB)) exTB.observations := by
  have hok : policy_batch exCfg exTB = Except.ok
      (trimTo 3 exTB.observations, trimTo 3 exTB.actions, finalW exCfg exTB) := rfl
  exact ⟨hok, by decide, by decide, by decide, by decide,
    (c4_prefix_trim exCfg exTB _ _ _ hok).1⟩

/-- Claim C5: when the leading dimensions of the actions differ from the
shape of the mask, policy_batch stops at the opening assertions with an
AssertionError; the result does not depend on the injected value function,
estimator or weight function, none of which has been invoked. -/
theorem c5_shape_mismatch_early {O A : Type} (cfg : PolicyConfig O A)
    (tb : TrajectoryBatch O A) (h : shape2 tb.actions ≠ shape2 tb.mask) :
    policy_batch cfg tb = Except.error AssertionError.mk := by
  unfold policy_batch
  by_cases h1 : isShape tb.actions (nRows tb.observations) (nCols tb.observations) = true
  · have h2 : ¬ isShape tb.mask (nRows tb.observations) (nCols tb.observations) = true := by
      intro h2
      exact h ((shape2_of_isShape h1).trans (shape2_of_isShape h2).symm)
    simp [h1, h2]
  · simp [h1]

theorem c5_shape_mismatch_early_witness :
    shape2 exTBbadA.actions ≠ shape2 exTBbadA.mask ∧
    policy_batch exCfg exTBbadA = Except.error AssertionError.mk :=
  ⟨by decide, c5_shape_mismatch_early exCfg exTBbadA (by decide)⟩

/-- Claim C6 (amended): every error policy_batch can raise is the unique
shape-assertion failure value, raised synchronously at the failing check; the
value carries no payload, in particular not the offending shapes, because the
source uses bare assert statements. -/
theorem c6_single_error_kind {O A : Type} (cfg : PolicyConfig O A)
    (tb : TrajectoryBatch O A) (e : AssertionError)
    (h : policy_batch cfg tb = Except.error e) : e = AssertionError.mk := by
  cases e
  rfl

theorem c6_single_error_kind_witness :
    policy_batch exCfg exTBbadA = Except.error AssertionError.mk ∧
    AssertionError.mk = AssertionError.mk :=
  ⟨rfl, c6_single_error_kind exCfg exTBbadA AssertionError.mk rfl⟩

/-- Claim C6, counterexample to the original wording: two batches whose
offending actions shapes differ, (1, 3) against (1, 4), produce the very same
error value, so the raised error cannot carry the offending shapes. -/
theorem c6_error_payload_counterexample :
    policy_batch exCfg exTBbadA = Except.error AssertionError.mk ∧
    policy_batch exCfg exTBbadB = Except.error AssertionError.mk ∧
    shape2 exTBbadA.actions ≠ shape2 exTBbadB.actions :=
  ⟨rfl, rfl, by decide⟩

/-- Claim C7: the entropy metric equals the arithmetic mean of the entries of
the distribution entropy on the policy inputs, and two calls with the same
policy inputs but arbitrary, possibly different, actions and weights return
the same scalar. -/
theorem c7_entropy_ignores_actions_weights {P A W : Type}
    (dist_entropy : P → List ℝ) (policy_inputs : P)
    (actions actions' : A) (weights weights' : W) :
    Entropy dist_entropy policy_inputs actions weights =
      listMean (dist_entropy policy_inputs) ∧
    Entropy dist_entropy policy_inputs actions weights =
      Entropy dist_entropy policy_inputs actions' weights' :=
  ⟨rfl, rfl⟩

/-- Claim C8: with normalization off, a run leaves the trajectory batch in
its initial state even under the aliasing estimator model, so a second run on
the same batch returns the same result, weights included. -/
theorem c8_no_normalization_idempotent {O A : Type} (cfg : PolicyConfigRef O A)
    (tb : TrajectoryBatch O A) (h : cfg.advantage_normalization = false) :
    (policy_batch_ref cfg tb).2 = tb ∧
    policy_batch_ref cfg ((policy_batch_ref cfg tb).2) = policy_batch_ref cfg tb := by
  have h2 : (policy_batch_ref cfg tb).2 = tb := by
    rcases policy_batch_ref_snd cfg tb with hs | hs
    · exact hs
    · rw [hs, writeBack_of_no_normalization h]
  exact ⟨h2, by rw [h2]⟩

theorem c8_no_normalization_idempotent_witness :
    exCfgRef.advantage_normalization = false ∧
    (policy_batch_ref exCfgRef exTB).2 = exTB ∧
    policy_batch_ref exCfgRef ((policy_batch_ref exCfgRef exTB).2) =
      policy_batch_ref exCfgRef exTB := by
  obtain ⟨h1, h2⟩ := c8_no_normalization_idempotent exCfgRef exTB rfl
  exact ⟨rfl, h1, h2⟩

/-- Claim C9 (amended): policy_batch never mutates its input batch provided
the advantage estimator returns a freshly allocated array, as the estimators
of this library do; this holds whether the run returns or fails, and for
either normalization setting. -/
theorem c9_no_mutation_fresh {O A : Type} (cfg : PolicyConfigRef O A)
    (tb : TrajectoryBatch O A)
    (hfresh : ∀ r R d v, ∃ a0, cfg.advantage_estimator r R d v = AdvOut.fresh a0) :
    (policy_batch_ref cfg tb).2 = tb := by
  rcases policy_batch_ref_snd cfg tb with hs | hs
  · exact hs
  · rw [hs, writeBack_of_fresh tb hfresh]

theorem c9_no_mutation_fresh_witness :
    (∀ r R d v, ∃ a0, exCfgRef.advantage_estimator r R d v = AdvOut.fresh a0) ∧
    (policy_batch_ref exCfgRef exTB).2 = exTB :=
  ⟨fun r _ _ _ => ⟨trimTo 3 r, rfl⟩,
   c9_no_mutation_fresh exCfgRef exTB fun r _ _ _ => ⟨trimTo 3 r, rfl⟩⟩

/-- Claim C9, counterexample to the original wording: with normalization on
and an estimator that returns the rewards field by reference, the run
succeeds and the in-place normalization of lines 136-137 leaves the rewards
field of the batch changed. -/
theorem c9_aliasing_mutation_counterexample :
    (policy_batch_ref exCfgMut exTBC).1 =
      Except.ok (trimTo 2 exTBC.observations, trimTo 2 exTBC.actions,
        finalWRef exCfgMut exTBC) ∧
    (policy_batch_ref exCfgMut exTBC).2.rewards ≠ exTBC.rewards := by
  refine ⟨rfl, ?_⟩
  intro heq
  have h0 : (policy_batch_ref exCfgMut exTBC).2.rewards =
      normalizeAdv [[1, -1]] (1 / 100000) := rfl
  have hne : flat ([[1, -1]] : Mat ℝ) ≠ [] := by simp [flat]
  have hμ : npMean [[1, -1]] = 0 := by
    simp [npMean, listMean, flat]
  have hσ : npStd [[1, -1]] = 1 := by
    unfold npStd
    rw [hμ]
    have hv : npMean (mmap (fun x : ℝ => (x - 0) ^ 2) [[1, -1]]) = 1 := by
      simp [npMean, listMean, flat, mmap]
    rw [hv, Real.sqrt_one]
  have hr : exTBC.rewards = [[1, -1]] := rfl
  rw [h0, hr, normalizeAdv_eq _ _ hne, hμ, hσ] at heq
  simp only [mmap, List.map_cons, List.map_nil, List.cons.injEq, and_true] at heq
  norm_num at heq

/-- Claim C10: with normalization on and a constant (zero-variance) advantage
estimate, a run that is otherwise well-shaped does not fail: the standard
deviation is 0, the epsilon term keeps the denominator non-zero, every
normalized advantage entry is exactly 0, and with the identity weight
function every returned weight is 0. -/
theorem c10_zero_variance_zero_weights {O A : Type} (cfg : PolicyConfig O A)
    (tb : TrajectoryBatch O A) (c : ℝ) (o : Mat O) (a : Mat A) (w : Mat ℝ)
    (hnorm : cfg.advantage_normalization = true)
    (hid : cfg.weight_fn = fun m => m)
    (hconst : ∀ x ∈ flat (rawAdv cfg tb), x = c)
    (hne : flat (rawAdv cfg tb) ≠ [])
    (heps : 0 < cfg.advantage_normalization_epsilon)
    (hok : policy_batch { cfg with advantage_normalization := false } tb
      = Except.ok (o, a, w)) :
    policy_batch cfg tb = Except.ok (o, a, finalW cfg tb) ∧
    npStd (rawAdv cfg tb) = 0 ∧
    cfg.advantage_normalization_epsilon ≠ 0 ∧
    (∀ x ∈ flat (finalAdv cfg tb), x = 0) ∧
    (∀ x ∈ flat (finalW cfg tb), x = 0) := by
  obtain ⟨hact, hmask, hval, hle, hadv, hWF, ho, ha, hw⟩ :=
    (policy_batch_ok_iff { cfg with advantage_normalization := false } tb o a w).mp hok
  have hact' : isShape tb.actions (nRows tb.observations) (nCols tb.observations) = true :=
    hact
  have hmask' : isShape tb.mask (nRows tb.observations) (nCols tb.observations) = true :=
    hmask
  have hval' : isShape (cfg.value_fn tb) (nRows tb.observations)
      (nCols tb.observations) = true := hval
  have hle' : nCols (rawAdv cfg tb) ≤ nCols tb.observations := hle
  have hadv' : isShape (rawAdv cfg tb) (nRows tb.observations)
      (nCols (rawAdv cfg tb)) = true := hadv
  have hWF' : isShape (hadamard (cfg.weight_fn (rawAdv cfg tb))
      (trimTo (nCols (rawAdv cfg tb)) tb.mask)) (nRows tb.observations)
      (nCols (rawAdv cfg tb)) = true := hWF
  have hfadv : finalAdv cfg tb =
      normalizeAdv (rawAdv cfg tb) cfg.advantage_normalization_epsilon := by
    unfold finalAdv
    rw [hnorm]
    simp
  have hfw : finalW cfg tb =
      hadamard (normalizeAdv (rawAdv cfg tb) cfg.advantage_normalization_epsilon)
        (trimTo (nCols (rawAdv cfg tb)) tb.mask) := by
    unfold finalW
    rw [hfadv, hid]
  have hskel : (normalizeAdv (rawAdv cfg tb) cfg.advantage_normalization_epsilon).map
      List.length = (rawAdv cfg tb).map List.length := by
    unfold normalizeAdv
    rw [rowLens_mmap, rowLens_mmap]
  have h6 : isShape (finalW cfg tb) (nRows tb.observations)
      (nCols (rawAdv cfg tb)) = true := by
    rw [hfw, isShape_congr (rowLens_hadamard_left hskel) _ _]
    rw [hid] at hWF'
    exact hWF'
  have hzeroAdv : ∀ x ∈ flat (finalAdv cfg tb), x = 0 := by
    rw [hfadv]
    exact normalizeAdv_const _ _ c hne hconst
  refine ⟨(policy_batch_ok_iff cfg tb o a (finalW cfg tb)).mpr
      ⟨hact', hmask', hval', hle', hadv', h6, ho, ha, rfl⟩,
    npStd_const _ c hne hconst, ne_of_gt heps, hzeroAdv, ?_⟩
  intro x hx
  rw [hfw] at hx
  obtain ⟨p, hp, q, hq, rfl⟩ := mem_flat_hadamard hx
  rw [normalizeAdv_const _ _ c hne hconst p hp, zero_mul]

theorem c10_zero_variance_zero_weights_witness :
    exCfgC.advantage_normalization = true ∧
    flat (rawAdv exCfgC exTBC) = [5, 5] ∧
    policy_batch exCfgC exTBC = Except.ok
      (trimTo 2 exTBC.observations, trimTo 2 exTBC.actions, finalW exCfgC exTBC) ∧
    ∀ x ∈ flat (finalW exCfgC exTBC), x = 0 := by
  have hconst : ∀ x ∈ flat (rawAdv exCfgC exTBC), x = (5 : ℝ) := by
    intro x hx
    rw [show flat (rawAdv exCfgC exTBC) = [(5 : ℝ), 5] from rfl] at hx
    simpa using hx
  have hne : flat (rawAdv exCfgC exTBC) ≠ [] := by
    rw [show flat (rawAdv exCfgC exTBC) = [(5 : ℝ), 5] from rfl]
    simp
  have heps : (0 : ℝ) < exCfgC.advantage_normalization_epsilon := by
    show (0 : ℝ) < 1 / 100000
    norm_num
  have hok : policy_batch { exCfgC with advantage_normalization := false } exTBC
      = Except.ok (trimTo 2 exTBC.observations, trimTo 2 exTBC.actions,
        finalW { exCfgC with advantage_normalization := false } exTBC) := rfl
  have h := c10_zero_variance_zero_weights exCfgC exTBC 5 _ _ _ rfl rfl hconst hne heps hok
  exact ⟨rfl, rfl, h.1, h.2.2.2.2⟩

/-- Claim C1 (amended): with normalization on, the advantages are normalized
globally, every entry being mapped to (x - mean) / (std + epsilon) with mean
and population standard deviation taken over all entries; the result has mean
exactly 0, and its standard deviation is std / (std + epsilon), whose
distance from 1 is epsilon / (std + epsilon) - within epsilon only when
std + epsilon is at least 1, not for every non-zero-variance input. -/
theorem c1_global_normalization {O A : Type} (cfg : PolicyConfig O A)
    (tb : TrajectoryBatch O A)
    (hnorm : cfg.advantage_normalization = true)
    (hne : flat (rawAdv cfg tb) ≠ [])
    (heps : 0 < cfg.advantage_normalization_epsilon) :
    finalAdv cfg tb = mmap (fun x => (x - npMean (rawAdv cfg tb)) /
      (npStd (rawAdv cfg tb) + cfg.advantage_normalization_epsilon)) (rawAdv cfg tb) ∧
    npMean (finalAdv cfg tb) = 0 ∧
    npStd (finalAdv cfg tb) = npStd (rawAdv cfg tb) /
      (npStd (rawAdv cfg tb) + cfg.advantage_normalization_epsilon) ∧
    |npStd (finalAdv cfg tb) - 1| = cfg.advantage_normalization_epsilon /
      (npStd (rawAdv cfg tb) + cfg.advantage_normalization_epsilon) := by
  have hfadv : finalAdv cfg tb =
      normalizeAdv (rawAdv cfg tb) cfg.advantage_normalization_epsilon := by
    unfold finalAdv
    rw [hnorm]
    simp
  have hd : 0 < npStd (rawAdv cfg tb) + cfg.advantage_normalization_epsilon :=
    add_pos_of_nonneg_of_pos (npStd_nonneg _) heps
  refine ⟨?_, ?_, ?_, ?_⟩
  · rw [hfadv]
    exact normalizeAdv_eq _ _ hne
  · rw [hfadv]
    exact npMean_normalizeAdv _ _ hne
  · rw [hfadv]
    exact npStd_normalizeAdv _ _ hne heps.le
  · rw [hfadv, npStd_normalizeAdv _ _ hne heps.le]
    have he : npStd (rawAdv cfg tb) /
          (npStd (rawAdv cfg tb) + cfg.advantage_normalization_epsilon) - 1 =
        -(cfg.advantage_normalization_epsilon /
          (npStd (rawAdv cfg tb) + cfg.advantage_normalization_epsilon)) := by
      field_simp
    rw [he, abs_neg, abs_of_nonneg (div_nonneg heps.le hd.le)]

theorem c1_global_normalization_witness :
    exCfgN.advantage_normalization = true ∧
    flat (rawAdv exCfgN exTBC) ≠ [] ∧
    (0 : ℝ) < exCfgN.advantage_normalization_epsilon ∧
    npMean (finalAdv exCfgN exTBC) = 0 := by
  have hne : flat (rawAdv exCfgN exTBC) ≠ [] := by
    rw [show flat (rawAdv exCfgN exTBC) = [0, 2 / 100000] from rfl]
    simp
  have heps : (0 : ℝ) < exCfgN.advantage_normalization_epsilon := by
    show (0 : ℝ) < 1 / 100000
    norm_num
  exact ⟨rfl, hne, heps, (c1_global_normalization exCfgN exTBC rfl hne heps).2.1⟩

/-- Claim C1, counterexample to the original wording: on a successful run
with normalization on and a non-zero-variance advantage estimate of the order
of epsilon, the standard deviation of the normalized advantages is 1/2, not
within epsilon of 1. -/
theorem c1_std_tolerance_counterexample :
    policy_batch exCfgN exTBC = Except.ok
      (trimTo 2 exTBC.observations, trimTo 2 exTBC.actions, finalW exCfgN exTBC) ∧
    exCfgN.advantage_normalization = true ∧
    npStd (rawAdv exCfgN exTBC) ≠ 0 ∧
    ¬ (|npStd (finalAdv exCfgN exTBC) - 1| ≤ exCfgN.advantage_normalization_epsilon) := by
  have hraw : rawAdv exCfgN exTBC = [[0, 2 / 100000]] := rfl
  have hne : flat ([[0, 2 / 100000]] : Mat ℝ) ≠ [] := by simp [flat]
  have hμ : npMean [[0, 2 / 100000]] = 1 / 100000 := by
    norm_num [npMean, listMean, flat]
  have hσ : npStd [[0, 2 / 100000]] = 1 / 100000 := by
    unfold npStd
    rw [hμ]
    have hv : npMean (mmap (fun x : ℝ => (x - 1 / 100000) ^ 2) [[0, 2 / 100000]])
        = (1 / 100000 : ℝ) ^ 2 := by
      norm_num [npMean, listMean, flat, mmap]
    rw [hv, Real.sqrt_sq (by norm_num)]
  have hfadv : finalAdv exCfgN exTBC = normalizeAdv [[0, 2 / 100000]] (1 / 100000) := rfl
  have h4 : npStd (finalAdv exCfgN exTBC) = 1 / 2 := by
    rw [hfadv, npStd_normalizeAdv _ _ hne (by norm_num), hσ]
    norm_num
  have heps : exCfgN.advantage_normalization_epsilon = 1 / 100000 := rfl
  refine ⟨rfl, rfl, ?_, ?_⟩
  · rw [hraw, hσ]
    norm_num
  · rw [h4, heps, abs_of_nonpos (by norm_num : (1 : ℝ) / 2 - 1 ≤ 0)]
    norm_num

end PolicyTasks
